import Mathlib

/-!
Verification development for the remark-ingestion layer of `cargo-remark`
(`src/remark/mod.rs`).  The Rust code is shallowly embedded: strings are
Lean `String`s manipulated through their character lists, the `BTreeMap`
argument bucket is an association list iterated in ascending key order,
and the external collaborators (the base demangling transform of the
`rustc_demangle` crate and the filesystem existence check) are explicit
function parameters.
-/

set_option autoImplicit false

namespace CargoRemark

/-! ## String helpers (character-list based models of the Rust string ops) -/

/-- Model of `str::is_empty`. -/
def strIsEmpty (s : String) : Bool :=
  s.data.isEmpty

/-- Model of `str::starts_with` for a string pattern. -/
def strStartsWith (s p : String) : Bool :=
  p.data.isPrefixOf s.data

/-- Model of `str::ends_with` for a string pattern. -/
def strEndsWith (s p : String) : Bool :=
  p.data.reverse.isPrefixOf s.data.reverse

/-- Model of `str::strip_prefix`: the remainder after the pattern, when the
pattern is a prefix. -/
def stripPre (p s : String) : Option String :=
  if p.data.isPrefixOf s.data then some ⟨s.data.drop p.data.length⟩ else none

/-- Everything after the first occurrence of character `c`, when present.
Models `str::find(c)` followed by slicing at `index + 1 ..`. -/
def afterChar (c : Char) : List Char → Option (List Char)
  | [] => none
  | x :: xs => if x = c then some xs else afterChar c xs

/-- Model of `str::replace(pattern_char, replacement_char)`. -/
def replaceChar (a b : Char) (s : String) : String :=
  ⟨s.data.map fun c => if c = a then b else c⟩

/-- Removal of the trailing `n` characters, the model of
`String::drain(len - n ..)` (the drained region is ASCII wherever this is
used, so bytes and characters agree). -/
def strDropLast (s : String) (n : Nat) : String :=
  ⟨s.data.take (s.data.length - n)⟩

/-- Model of `PathBuf::join` on Unix-style string paths: an absolute
argument replaces the base, otherwise the argument is appended with a
separator inserted when needed. -/
def pathJoin (base p : String) : String :=
  if strStartsWith p "/" then p
  else if strIsEmpty base then p
  else if strEndsWith base "/" then base ++ p
  else base ++ "/" ++ p

/-- Rust `bool::to_string`. -/
def boolToString : Bool → String
  | true => "true"
  | false => "false"

/-! ## Data model (`src/remark/mod.rs` types; the `parse` submodule's data
shapes are modelled from the spec's input-format table) -/

/-- `Location` (mod.rs): a normalized source location. -/
structure Location where
  file : String
  line : Nat
  column : Nat
  deriving DecidableEq, Repr

/-- `Function` (mod.rs): a demangled function identity. -/
structure Function where
  name : String
  location : Option Location
  deriving DecidableEq, Repr

/-- `MessagePart` (mod.rs): a plain-text run or a location-annotated span. -/
inductive MessagePart where
  | string (s : String)
  | annotatedString (message : String) (location : Location)
  deriving DecidableEq, Repr

/-- Whether a message part is a plain-text (`MessagePart::String`) part. -/
def MessagePart.isPlain : MessagePart → Bool
  | .string _ => true
  | .annotatedString _ _ => false

/-- `Remark` (mod.rs): one accepted remark. -/
structure Remark where
  pass : String
  name : String
  function : Function
  message : List MessagePart
  hotness : Option Int
  deriving DecidableEq, Repr

/-- `RemarkLoadOptions` (mod.rs); `RustcSourceRoot` is a path string. -/
structure RemarkLoadOptions where
  external : Bool
  source_dir : String
  filter_kind : List String
  rustc_source_root : Option String

/-- Modelled from the spec: `DebugLoc` as decoded by the (absent) `parse`
submodule — `{File, Line, Column}`. -/
structure DebugLocation where
  file : String
  line : Nat
  column : Nat
  deriving DecidableEq, Repr

/-- Modelled from the spec: a scalar `serde_yaml::Value` found in the open
`Other` argument vocabulary.  A number is opaque and carries its rendered
form; a mapping that decodes as a `DebugLoc` is the `loc` variant; every
other shape (null, sequence, non-location mapping, tagged) is `otherVal`. -/
inductive YamlValue where
  | bool (b : Bool)
  | number (display : String)
  | str (s : String)
  | loc (l : DebugLocation)
  | otherVal
  deriving DecidableEq, Repr

/-- Modelled from the spec: `DebugLocation::deserialize(value).ok()` —
succeeds exactly on a value that is a location-shaped mapping. -/
def decodeDebugLoc : YamlValue → Option DebugLocation
  | .loc l => some l
  | _ => none

/-- The scalar filter of `aggregate_keys`: bools and numbers render to
their string form, strings pass through, everything else is dropped. -/
def scalarString : YamlValue → Option String
  | .bool b => some (boolToString b)
  | .number d => some d
  | .str s => some s
  | _ => none

/-- Modelled from the spec: the `RemarkArg` vocabulary decoded by the
(absent) `parse` submodule — `String`, `Callee`/`Caller` with an optional
`DebugLoc`, `Reason`, and the open `Other` bucket, a `BTreeMap` modelled
as an association list. -/
inductive RemarkArg where
  | string (s : String)
  | callee (callee : String) (debug_loc : Option DebugLocation)
  | caller (caller : String) (debug_loc : Option DebugLocation)
  | reason (s : String)
  | other (map : List (String × YamlValue))
  deriving DecidableEq, Repr

/-- Modelled from the spec: a decoded `!Missed` document. -/
structure MissedRemark where
  pass : String
  name : String
  debug_loc : Option DebugLocation
  function : String
  args : List RemarkArg
  hotness : Option Int
  deriving DecidableEq, Repr

/-- Modelled from the spec: one tag-discriminated document. -/
inductive ParsedRemark where
  | missed (m : MissedRemark)
  | passed
  | analysis
  deriving DecidableEq, Repr

/-! ## Demangling (`demangle`, mod.rs lines 309-321) -/

/-- Lowercase ASCII alphanumeric, the `[a-z0-9]` character class. -/
def isLowerAlnum (c : Char) : Bool :=
  ('a' ≤ c && c ≤ 'z') || ('0' ≤ c && c ≤ '9')

/-- Whether the regex `.*::[a-z0-9]\x7b17\x7d$` finds a match in `s`:
the string ends with `::` followed by exactly seventeen lowercase
alphanumeric characters. -/
def hashSuffixMatch (s : String) : Bool :=
  let r := s.data.reverse
  decide (19 ≤ r.length) && (r.take 17).all isLowerAlnum &&
    (r[17]? == some ':') && (r[18]? == some ':')

/-- `demangle` (mod.rs): apply the external base transform `base`
(the `rustc_demangle` crate), then strip a trailing `::` + 17-character
legacy hash when the pattern matches; the match region is ASCII, so the
drained 19 bytes are 19 characters. -/
def demangle (base : String → String) (function : String) : String :=
  let demangled := base function
  if hashSuffixMatch demangled then strDropLast demangled 19 else demangled

/-- Modelled from the spec: the external base demangling transform.  An
identifier that carries no mangling marker (legacy `_ZN`, v0 `_R`) is not a
mangled symbol and is produced unchanged; the behaviour on genuinely
mangled identifiers is the parameter `onMangled`. -/
def rustcDemangleModel (onMangled : String → String) (s : String) : String :=
  if strStartsWith s "_ZN" || strStartsWith s "_R" then onMangled s else s

/-! ## Path normalization (`normalize_path`, `parse_debug_loc`) -/

/-- The fixed toolchain marker, `RUSTC_PREFIX` in the source. -/
def rustcMarker : String := "/rustc/"

/-- `normalize_path` (mod.rs): with a configured toolchain source root, a
path of the form `/rustc/<ident>/<rest>` is remapped to the root joined
with `<rest>`, backslashes normalized to forward slashes; otherwise the
path passes through unchanged. -/
def normalize_path (options : RemarkLoadOptions) (path : String) : String :=
  match options.rustc_source_root with
  | some root =>
    match stripPre rustcMarker path with
    | some stripped =>
      match afterChar '/' stripped.data with
      | some rest => replaceChar '\\' '/' (pathJoin root ⟨rest⟩)
      | none => path
    | none => path
  | none => path

/-- `parse_debug_loc` (mod.rs): normalize the file path, keep line and
column. -/
def parse_debug_loc (options : RemarkLoadOptions) (location : DebugLocation) :
    Location :=
  { file := normalize_path options location.file
    line := location.line
    column := location.column }

/-! ## Message composition (`construct_message`, mod.rs lines 146-217) -/

/-- `BTreeMap::remove("DebugLoc")`, value part: the value stored at the
key (first occurrence; a `BTreeMap` holds each key at most once). -/
def lookupKey (k : String) (m : List (String × YamlValue)) : Option YamlValue :=
  (m.find? fun p => p.1 == k).map Prod.snd

/-- `BTreeMap::remove("DebugLoc")`, map part: the map without the key. -/
def eraseKey (k : String) (m : List (String × YamlValue)) :
    List (String × YamlValue) :=
  m.filter fun p => !(p.1 == k)

/-- Lexicographic order on character lists by codepoint — on UTF-8 data
this is exactly the byte order `Ord` that `BTreeMap<Cow<str>, _>` sorts
its keys by. -/
def charsLt : List Char → List Char → Bool
  | [], [] => false
  | [], _ :: _ => true
  | _ :: _, [] => false
  | a :: as, b :: bs =>
    if a.toNat < b.toNat then true
    else if b.toNat < a.toNat then false
    else charsLt as bs

/-- Insertion into a key-sorted association list. -/
def insertByKey (p : String × YamlValue) :
    List (String × YamlValue) → List (String × YamlValue)
  | [] => [p]
  | q :: rest =>
    if charsLt p.1.data q.1.data then p :: q :: rest else q :: insertByKey p rest

/-- The association list sorted by ascending key: the iteration order of
`BTreeMap::into_values`. -/
def sortByKey (m : List (String × YamlValue)) : List (String × YamlValue) :=
  m.foldr insertByKey []

/-- `aggregate_keys` (mod.rs): extend the buffer with the scalar renderings
of the map's values, taken in ascending key order. -/
def aggregate_keys (buffer : String) (m : List (String × YamlValue)) : String :=
  buffer ++ String.join ((sortByKey m).map Prod.snd |>.filterMap scalarString)

/-- The flush step of `add_annotated` (mod.rs): a non-empty buffer is
pushed as a plain-text part. -/
def flushInto (buffer : String) (parts : List MessagePart) : List MessagePart :=
  if strIsEmpty buffer then parts else parts ++ [MessagePart.string buffer]

/-- `add_annotated` (mod.rs): flush the buffer, push the annotated part,
clear the buffer. -/
def add_annotated (part : MessagePart) (buffer : String)
    (parts : List MessagePart) : List MessagePart × String :=
  (flushInto buffer parts ++ [part], "")

/-- One iteration of the argument loop of `construct_message` on the state
`(parts, buffer)`. -/
def construct_step (base : String → String) (opts : RemarkLoadOptions) :
    List MessagePart × String → RemarkArg → List MessagePart × String
  | (parts, buffer), .string s => (parts, buffer ++ s)
  | (parts, buffer), .callee f (some location) =>
    add_annotated
      (.annotatedString (demangle base f) (parse_debug_loc opts location))
      buffer parts
  | (parts, buffer), .caller f (some location) =>
    add_annotated
      (.annotatedString (demangle base f) (parse_debug_loc opts location))
      buffer parts
  | (parts, buffer), .callee f none => (parts, buffer ++ demangle base f)
  | (parts, buffer), .caller f none => (parts, buffer ++ demangle base f)
  | (parts, buffer), .reason s => (parts, buffer ++ s)
  | (parts, buffer), .other m =>
    match (lookupKey "DebugLoc" m).bind decodeDebugLoc with
    | some location =>
      add_annotated
        (.annotatedString (aggregate_keys "" (eraseKey "DebugLoc" m))
          (parse_debug_loc opts location))
        buffer parts
    | none => (parts, aggregate_keys buffer (eraseKey "DebugLoc" m))

/-- `construct_message` (mod.rs): fold the argument list through
`construct_step` from the empty state, then flush the remaining buffer. -/
def construct_message (base : String → String) (opts : RemarkLoadOptions)
    (arguments : List RemarkArg) : List MessagePart :=
  let st := arguments.foldl (construct_step base opts) ([], "")
  flushInto st.2 st.1

/-! ## Record decoding (`parse_remarks`, mod.rs lines 88-144).  The input
stream is the list of per-document deserialization outcomes, `none` being
a document that failed to decode. -/

/-- The body of the document loop of `parse_remarks`: the remarks
contributed by one document.  `isFile` is the filesystem existence check
`options.source_dir.join(file).is_file()` applied to the joined path. -/
def processDocument (base : String → String) (isFile : String → Bool)
    (options : RemarkLoadOptions) : Option ParsedRemark → List Remark
  | none => []
  | some .passed => []
  | some .analysis => []
  | some (.missed m) =>
    match m.debug_loc with
    | none => []
    | some location =>
      if !options.external && strStartsWith location.file "/" then []
      else if !options.external &&
          !(isFile (pathJoin options.source_dir location.file)) then []
      else if options.filter_kind.any fun filter => filter == m.name then []
      else
        [{ pass := m.pass
           name := m.name
           function :=
             { name := demangle base m.function
               location := some (parse_debug_loc options location) }
           message := construct_message base options m.args
           hotness := m.hotness }]

/-- `parse_remarks` (mod.rs): process the documents in order, appending
each document's contribution. -/
def parse_remarks (base : String → String) (isFile : String → Bool)
    (options : RemarkLoadOptions) : List (Option ParsedRemark) → List Remark
  | [] => []
  | doc :: rest =>
    processDocument base isFile options doc ++
      parse_remarks base isFile options rest

/-! ## File and directory loading (`load_remarks_from_file`,
`load_remarks_from_dir`, mod.rs lines 67-86 and 219-282) -/

/-- One input file as the loader sees it: either the open/read/metadata
step fails, or it yields a stream of document outcomes (an empty file is
`content []`). -/
inductive FileInput where
  | unreadable
  | content (docs : List (Option ParsedRemark))
  deriving DecidableEq

/-- `load_remarks_from_file` (mod.rs): an unreadable file is an error, an
empty file is `Ok []`, otherwise the parsed remarks of the stream. -/
def load_remarks_from_file (base : String → String) (isFile : String → Bool)
    (options : RemarkLoadOptions) : FileInput → Except Unit (List Remark)
  | .unreadable => .error ()
  | .content docs => .ok (parse_remarks base isFile options docs)

/-- The remark directory as the loader sees it: either it cannot be
canonicalized/read, or it enumerates an ordered list of files. -/
inductive DirInput where
  | inaccessible
  | dir (files : List FileInput)

/-- The parallel map phase of `load_remarks_from_dir`: the workers finish
in the order given by `schedule` (a permutation of the file indices), each
completion contributing the pair of its original index and its result. -/
def runSchedule {α : Type} (process : FileInput → α) (files : List FileInput)
    (schedule : List Nat) : List (Nat × α) :=
  schedule.filterMap fun i => (files[i]?).map fun f => (i, process f)

/-- The collection phase of `load_remarks_from_dir`:
`rayon`'s `collect` places each completed result back at its original
file-list index. -/
def collectByIndex {α : Type} (n : Nat) (completed : List (Nat × α)) :
    List α :=
  (List.range n).filterMap fun i =>
    (completed.find? fun p => p.1 == i).map Prod.snd

/-- `load_remarks_from_dir` (mod.rs): an inaccessible directory is fatal;
otherwise the per-file results are computed in `schedule` order, collected
by original index, failed files dropped, and the rest flattened. -/
def load_remarks_from_dir (base : String → String) (isFile : String → Bool)
    (options : RemarkLoadOptions) (schedule : List Nat) :
    DirInput → Except Unit (List Remark)
  | .inaccessible => .error ()
  | .dir files =>
    .ok ((collectByIndex files.length
        (runSchedule (load_remarks_from_file base isFile options) files
          schedule)).filterMap Except.toOption |>.flatten)

/-- The spec-side sequential reference for the directory load: process the
files one after the other in enumeration order, drop failures, flatten. -/
def seqLoad (base : String → String) (isFile : String → Bool)
    (options : RemarkLoadOptions) (files : List FileInput) : List Remark :=
  ((files.map (load_remarks_from_file base isFile options)).filterMap
    Except.toOption).flatten

/-! ## The acceptance policy as the spec states it -/

/-- The spec's rejection condition for a `Missed` candidate with a
location: (1) external remarks are off and the file path is absolute, or
(2) external remarks are off and the path joined onto the source directory
is not an existing regular file, or (3) the name is excluded. -/
def rejectedSpec (isFile : String → Bool) (options : RemarkLoadOptions)
    (name : String) (location : DebugLocation) : Prop :=
  (options.external = false ∧ strStartsWith location.file "/" = true) ∨
  (options.external = false ∧
    isFile (pathJoin options.source_dir location.file) = false) ∨
  name ∈ options.filter_kind

instance (isFile : String → Bool) (options : RemarkLoadOptions)
    (name : String) (location : DebugLocation) :
    Decidable (rejectedSpec isFile options name location) := by
  unfold rejectedSpec
  infer_instance

/-! ## Theorems about the message composer -/

/-- Claim C1: in the message composer, a `Callee` or `Caller` argument
carrying a location first flushes a non-empty buffer as a plain-text part,
then appends a standalone annotated part pairing the demangled name with
the normalized location, and resets the buffer; without a location it only
appends the demangled name to the buffer and produces no annotated part.
Scenario B: `[String "x ", Callee F L, String " y"]` composes to
`[PlainText "x ", AnnotatedText (demangle F) L, PlainText " y"]`. -/
theorem C1_located_callee_caller_flushes (base : String → String)
    (opts : RemarkLoadOptions) (parts : List MessagePart) (buffer : String)
    (f : String) (loc : DebugLocation) :
    construct_step base opts (parts, buffer) (.callee f (some loc)) =
      ((if strIsEmpty buffer then parts else parts ++ [.string buffer]) ++
        [.annotatedString (demangle base f) (parse_debug_loc opts loc)], "") ∧
    construct_step base opts (parts, buffer) (.caller f (some loc)) =
      ((if strIsEmpty buffer then parts else parts ++ [.string buffer]) ++
        [.annotatedString (demangle base f) (parse_debug_loc opts loc)], "") ∧
    construct_step base opts (parts, buffer) (.callee f none) =
      (parts, buffer ++ demangle base f) ∧
    construct_step base opts (parts, buffer) (.caller f none) =
      (parts, buffer ++ demangle base f) ∧
    (∀ (ext : Bool) (dir : String) (fk : List String),
      construct_message base ⟨ext, dir, fk, none⟩
          [.string "x ", .callee f (some loc), .string " y"] =
        [.string "x ",
         .annotatedString (demangle base f) ⟨loc.file, loc.line, loc.column⟩,
         .string " y"]) := by
  refine ⟨rfl, rfl, rfl, rfl, fun ext dir fk => rfl⟩

lemma lookupKey_eraseKey (k : String) (m : List (String × YamlValue)) :
    lookupKey k (eraseKey k m) = none := by
  induction m with
  | nil => rfl
  | cons p rest ih =>
    by_cases h : p.1 == k
    · simp only [lookupKey, eraseKey] at ih ⊢
      simp [h, ih]
    · simp only [lookupKey, eraseKey] at ih ⊢
      simp [List.find?, h, ih]

lemma eraseKey_eraseKey (k : String) (m : List (String × YamlValue)) :
    eraseKey k (eraseKey k m) = eraseKey k m := by
  simp [eraseKey, List.filter_filter]

/-- Claim C2: an `Other` argument with a decodable location sub-field has
that sub-field removed, the remaining scalar values concatenated with no
separator in ascending key order into a fresh fragment, the buffer
flushed, and an annotated part appended pairing the fragment with the
location; without a decodable location sub-field the remaining values are
aggregated into the buffer in the same key order, with no flush.
Scenario C: keys `Line ↦ "4"`, `Column ↦ "18"` and no location aggregate
to `"184"` regardless of insertion order. -/
theorem C2_other_bucket_aggregation (base : String → String)
    (opts : RemarkLoadOptions) (parts : List MessagePart) (buffer : String)
    (m : List (String × YamlValue)) :
    (∀ l : DebugLocation,
      (lookupKey "DebugLoc" m).bind decodeDebugLoc = some l →
      construct_step base opts (parts, buffer) (.other m) =
        ((if strIsEmpty buffer then parts else parts ++ [.string buffer]) ++
          [.annotatedString
            (String.join
              (((sortByKey (eraseKey "DebugLoc" m)).map Prod.snd).filterMap
                scalarString))
            (parse_debug_loc opts l)], "")) ∧
    ((lookupKey "DebugLoc" m).bind decodeDebugLoc = none →
      construct_step base opts (parts, buffer) (.other m) =
        (parts, buffer ++
          String.join
            (((sortByKey (eraseKey "DebugLoc" m)).map Prod.snd).filterMap
              scalarString))) ∧
    (∀ (ext : Bool) (dir : String) (fk : List String),
      construct_message base ⟨ext, dir, fk, none⟩
          [.other [("Line", .str "4"), ("Column", .str "18")]] =
        [.string "184"] ∧
      construct_message base ⟨ext, dir, fk, none⟩
          [.other [("Column", .str "18"), ("Line", .str "4")]] =
        [.string "184"]) := by
  refine ⟨fun l h => ?_, fun h => ?_, fun ext dir fk => ⟨rfl, rfl⟩⟩
  · simp only [construct_step]
    rw [h]
    rfl
  · simp only [construct_step]
    rw [h]
    rfl

/-- Witness for claim C2 at concrete inputs. -/
theorem C2_other_bucket_aggregation_witness :
    construct_step (fun s => s) ⟨true, "d", [], none⟩ ([], "b")
        (.other [("DebugLoc", .loc ⟨"a.rs", 1, 2⟩), ("X", .str "v")]) =
      ([.string "b", .annotatedString "v" ⟨"a.rs", 1, 2⟩], "") ∧
    construct_step (fun s => s) ⟨true, "d", [], none⟩ ([], "b")
        (.other [("X", .str "v")]) =
      ([], "bv") := by
  constructor
  · exact ((C2_other_bucket_aggregation (fun s => s) ⟨true, "d", [], none⟩
      [] "b" [("DebugLoc", .loc ⟨"a.rs", 1, 2⟩), ("X", .str "v")]).1
      ⟨"a.rs", 1, 2⟩ rfl).trans (by decide)
  · exact ((C2_other_bucket_aggregation (fun s => s) ⟨true, "d", [], none⟩
      [] "b" [("X", .str "v")]).2.1 rfl).trans (by decide)

/-- Claim C10: an `Other` argument whose `DebugLoc` value does not decode
as a location has that key removed and its value dropped entirely — the
composer treats the argument exactly as if it had carried no `DebugLoc`
key at all. -/
theorem C10_undecodable_debugloc_dropped (base : String → String)
    (opts : RemarkLoadOptions) (parts : List MessagePart) (buffer : String)
    (m : List (String × YamlValue)) (v : YamlValue)
    (hv : lookupKey "DebugLoc" m = some v) (hdec : decodeDebugLoc v = none) :
    construct_step base opts (parts, buffer) (.other m) =
      construct_step base opts (parts, buffer)
        (.other (eraseKey "DebugLoc" m)) := by
  simp only [construct_step]
  rw [hv, lookupKey_eraseKey, Option.some_bind, hdec, Option.none_bind,
    eraseKey_eraseKey]

/-- Witness for claim C10 at a concrete input. -/
theorem C10_undecodable_debugloc_dropped_witness :
    construct_step (fun s => s) ⟨true, "d", [], none⟩ ([], "")
        (.other [("DebugLoc", .str "notloc"), ("Line", .str "4")]) =
      construct_step (fun s => s) ⟨true, "d", [], none⟩ ([], "")
        (.other (eraseKey "DebugLoc"
          [("DebugLoc", .str "notloc"), ("Line", .str "4")])) :=
  C10_undecodable_debugloc_dropped (fun s => s) ⟨true, "d", [], none⟩ [] ""
    [("DebugLoc", .str "notloc"), ("Line", .str "4")] (.str "notloc") rfl rfl

/-! ## The no-adjacent-plain-text invariant -/

/-- Adjacent parts are compatible when at least one of them is not a
plain-text part. -/
def partsAlternate (parts : List MessagePart) : Prop :=
  List.Chain' (fun a b => a.isPlain = false ∨ b.isPlain = false) parts

/-- The loop-time invariant: the parts are alternating and the list does
not end in a plain-text part. -/
def partOk (parts : List MessagePart) : Prop :=
  partsAlternate parts ∧ ∀ x ∈ parts.getLast?, x.isPlain = false

lemma partsAlternate_flush (buffer : String) (parts : List MessagePart)
    (h : partOk parts) : partsAlternate (flushInto buffer parts) := by
  obtain ⟨hc, hl⟩ := h
  unfold flushInto
  split
  · exact hc
  · rw [partsAlternate, List.chain'_append]
    exact ⟨hc, List.chain'_singleton _, fun x hx y hy => Or.inl (hl x hx)⟩

lemma partOk_add_annotated (msg : String) (loc : Location) (buffer : String)
    (parts : List MessagePart) (h : partOk parts) :
    partOk (add_annotated (.annotatedString msg loc) buffer parts).1 := by
  constructor
  · rw [add_annotated, partsAlternate, List.chain'_append]
    refine ⟨partsAlternate_flush buffer parts h, List.chain'_singleton _,
      fun x hx y hy => ?_⟩
    simp only [List.head?_cons, Option.mem_def, Option.some.injEq] at hy
    subst hy
    exact Or.inr rfl
  · intro x hx
    rw [add_annotated] at hx
    simp only [List.getLast?_concat, Option.mem_def, Option.some.injEq] at hx
    subst hx
    rfl

lemma partOk_step (base : String → String) (opts : RemarkLoadOptions)
    (st : List MessagePart × String) (arg : RemarkArg) (h : partOk st.1) :
    partOk ((construct_step base opts st arg).1) := by
  obtain ⟨parts, buffer⟩ := st
  cases arg with
  | string s => exact h
  | reason s => exact h
  | callee f dl =>
    cases dl with
    | none => exact h
    | some loc => exact partOk_add_annotated _ _ buffer parts h
  | caller f dl =>
    cases dl with
    | none => exact h
    | some loc => exact partOk_add_annotated _ _ buffer parts h
  | other m =>
    simp only [construct_step]
    cases hm : (lookupKey "DebugLoc" m).bind decodeDebugLoc with
    | none => exact h
    | some loc => exact partOk_add_annotated _ _ buffer parts h

lemma partOk_foldl (base : String → String) (opts : RemarkLoadOptions)
    (args : List RemarkArg) :
    ∀ st : List MessagePart × String, partOk st.1 →
      partOk ((args.foldl (construct_step base opts) st).1) := by
  induction args with
  | nil => exact fun st h => h
  | cons a rest ih =>
    intro st h
    exact ih _ (partOk_step base opts st a h)

lemma isPlain_false_annotated (x : MessagePart) (h : x.isPlain = false) :
    ∃ msg loc, x = .annotatedString msg loc := by
  cases x with
  | string s => exact absurd h (by simp [MessagePart.isPlain])
  | annotatedString msg loc => exact ⟨msg, loc, rfl⟩

/-- Claim C9: a finished message never contains two adjacent plain-text
parts — every plain-text part is immediately followed by an annotated
part or is the last part of the message. -/
theorem C9_no_adjacent_plaintext (base : String → String)
    (opts : RemarkLoadOptions) (args : List RemarkArg) :
    partsAlternate (construct_message base opts args) ∧
    ∀ (i : Nat) (s : String),
      (construct_message base opts args)[i]? = some (.string s) →
      (construct_message base opts args)[i + 1]? = none ∨
      ∃ msg loc,
        (construct_message base opts args)[i + 1]? =
          some (.annotatedString msg loc) := by
  have hok : partOk ((args.foldl (construct_step base opts) ([], "")).1) :=
    partOk_foldl base opts args ([], "") ⟨List.chain'_nil, by simp⟩
  have halt : partsAlternate (construct_message base opts args) :=
    partsAlternate_flush _ _ hok
  refine ⟨halt, fun i s hi => ?_⟩
  set msgs := construct_message base opts args with hmsg
  by_cases hlen : i + 1 < msgs.length
  · right
    have hi1 : i < msgs.length := Nat.lt_of_succ_lt hlen
    rw [partsAlternate, List.chain'_iff_get] at halt
    have hr := halt i (by omega)
    have hgi : msgs.get ⟨i, by omega⟩ = MessagePart.string s := by
      have := List.getElem?_eq_getElem hi1
      rw [hi] at this
      simpa [List.get_eq_getElem] using this.symm
    rcases hr with hr | hr
    · rw [hgi] at hr
      exact absurd hr (by simp [MessagePart.isPlain])
    · obtain ⟨msg, loc, hx⟩ := isPlain_false_annotated _ hr
      refine ⟨msg, loc, ?_⟩
      rw [List.getElem?_eq_getElem hlen]
      simpa [List.get_eq_getElem] using congrArg some hx
  · left
    exact List.getElem?_eq_none (by omega)

/-- Witness for claim C9 at a concrete input: the lone plain-text part of
a one-argument message has nothing after it. -/
theorem C9_no_adjacent_plaintext_witness :
    (construct_message (fun s => s) ⟨true, "d", [], none⟩
        [.string "a"])[0 + 1]? = none ∨
    ∃ msg loc,
      (construct_message (fun s => s) ⟨true, "d", [], none⟩
        [.string "a"])[0 + 1]? = some (.annotatedString msg loc) :=
  (C9_no_adjacent_plaintext (fun s => s) ⟨true, "d", [], none⟩
    [.string "a"]).2 0 "a" rfl

/-! ## Theorems about the record decoder and acceptance policy -/

/-- The remark produced from an accepted `Missed` document. -/
def acceptedRemark (base : String → String) (options : RemarkLoadOptions)
    (m : MissedRemark) (location : DebugLocation) : Remark :=
  { pass := m.pass
    name := m.name
    function :=
      { name := demangle base m.function
        location := some (parse_debug_loc options location) }
    message := construct_message base options m.args
    hotness := m.hotness }

lemma processDocument_missed (base : String → String) (isFile : String → Bool)
    (opts : RemarkLoadOptions) (m : MissedRemark) (loc : DebugLocation)
    (h : m.debug_loc = some loc) :
    processDocument base isFile opts (some (.missed m)) =
      if rejectedSpec isFile opts m.name loc then []
      else [acceptedRemark base opts m loc] := by
  simp only [processDocument, h, acceptedRemark]
  by_cases h1 : opts.external <;>
    by_cases h2 : strStartsWith loc.file "/" <;>
    by_cases h3 : isFile (pathJoin opts.source_dir loc.file) <;>
    by_cases h4 : m.name ∈ opts.filter_kind <;>
    simp [h1, h2, h3, h4, rejectedSpec, List.any_eq_true]

/-- Claim C3: a candidate `Missed` record with a location is rejected
exactly when external remarks are off and its file path is absolute, or
external remarks are off and the path joined onto the source directory is
not an existing regular file, or its name is excluded — and accepted
otherwise. -/
theorem C3_rejection_characterization (base : String → String)
    (isFile : String → Bool) (opts : RemarkLoadOptions) (m : MissedRemark)
    (loc : DebugLocation) (h : m.debug_loc = some loc) :
    processDocument base isFile opts (some (.missed m)) = [] ↔
      (opts.external = false ∧ strStartsWith loc.file "/" = true) ∨
      (opts.external = false ∧
        isFile (pathJoin opts.source_dir loc.file) = false) ∨
      m.name ∈ opts.filter_kind := by
  rw [processDocument_missed base isFile opts m loc h]
  by_cases hr : rejectedSpec isFile opts m.name loc
  · rw [if_pos hr]
    exact iff_of_true rfl hr
  · rw [if_neg hr]
    exact iff_of_false (by simp) hr

/-- Witness for claim C3 at a concrete input (excluded name, so the
candidate is rejected). -/
theorem C3_rejection_characterization_witness :
    (⟨"gvn", "Foo", some ⟨"a.rs", 1, 2⟩, "f", [], none⟩ :
        MissedRemark).debug_loc = some ⟨"a.rs", 1, 2⟩ ∧
    (processDocument (fun s => s) (fun _ => true) ⟨true, "d", ["Foo"], none⟩
        (some (.missed ⟨"gvn", "Foo", some ⟨"a.rs", 1, 2⟩, "f", [], none⟩)) =
        [] ↔
      (true = false ∧ strStartsWith "a.rs" "/" = true) ∨
      (true = false ∧ (fun _ => true : String → Bool)
        (pathJoin "d" "a.rs") = false) ∨
      "Foo" ∈ ["Foo"]) :=
  ⟨rfl, C3_rejection_characterization (fun s => s) (fun _ => true)
    ⟨true, "d", ["Foo"], none⟩ ⟨"gvn", "Foo", some ⟨"a.rs", 1, 2⟩, "f", [], none⟩
    ⟨"a.rs", 1, 2⟩ rfl⟩

/-- Claim C4: `Passed` and `Analysis` documents never yield a remark; a
`Missed` document without a location yields none; a `Missed` document
with a location that is not rejected yields exactly one remark whose pass,
name and hotness are carried over verbatim. -/
theorem C4_document_classification (base : String → String)
    (isFile : String → Bool) (opts : RemarkLoadOptions) :
    processDocument base isFile opts (some .passed) = [] ∧
    processDocument base isFile opts (some .analysis) = [] ∧
    (∀ m : MissedRemark, m.debug_loc = none →
      processDocument base isFile opts (some (.missed m)) = []) ∧
    (∀ (m : MissedRemark) (loc : DebugLocation), m.debug_loc = some loc →
      ¬ rejectedSpec isFile opts m.name loc →
      processDocument base isFile opts (some (.missed m)) =
        [acceptedRemark base opts m loc] ∧
      (acceptedRemark base opts m loc).pass = m.pass ∧
      (acceptedRemark base opts m loc).name = m.name ∧
      (acceptedRemark base opts m loc).hotness = m.hotness) := by
  refine ⟨rfl, rfl, fun m h => ?_, fun m loc h hr => ?_⟩
  · simp [processDocument, h]
  · exact ⟨(processDocument_missed base isFile opts m loc h).trans (if_neg hr),
      rfl, rfl, rfl⟩

/-- Witness for claim C4 at a concrete input (accepted candidate). -/
theorem C4_document_classification_witness :
    processDocument (fun s => s) (fun _ => true) ⟨true, "d", [], none⟩
        (some (.missed ⟨"gvn", "Bar", some ⟨"a.rs", 1, 2⟩, "f", [], some 7⟩)) =
      [acceptedRemark (fun s => s) ⟨true, "d", [], none⟩
        ⟨"gvn", "Bar", some ⟨"a.rs", 1, 2⟩, "f", [], some 7⟩ ⟨"a.rs", 1, 2⟩] ∧
    (acceptedRemark (fun s => s) ⟨true, "d", [], none⟩
      ⟨"gvn", "Bar", some ⟨"a.rs", 1, 2⟩, "f", [], some 7⟩
      ⟨"a.rs", 1, 2⟩).hotness = some 7 :=
  ⟨((C4_document_classification (fun s => s) (fun _ => true)
      ⟨true, "d", [], none⟩).2.2.2
      ⟨"gvn", "Bar", some ⟨"a.rs", 1, 2⟩, "f", [], some 7⟩ ⟨"a.rs", 1, 2⟩ rfl
      (by simp [rejectedSpec])).1,
   ((C4_document_classification (fun s => s) (fun _ => true)
      ⟨true, "d", [], none⟩).2.2.2
      ⟨"gvn", "Bar", some ⟨"a.rs", 1, 2⟩, "f", [], some 7⟩ ⟨"a.rs", 1, 2⟩ rfl
      (by simp [rejectedSpec])).2.2.2⟩

/-! ## Theorems about the demangling transform -/

lemma hashSuffixMatch_iff (s : String) :
    hashSuffixMatch s = true ↔
      ∃ pre hash : List Char, s.data = pre ++ ':' :: ':' :: hash ∧
        hash.length = 17 ∧ hash.all isLowerAlnum = true := by
  constructor
  · intro h
    simp only [hashSuffixMatch, Bool.and_eq_true, decide_eq_true_eq,
      beq_iff_eq] at h
    obtain ⟨⟨⟨hlen, hall⟩, h17⟩, h18⟩ := h
    set r := s.data.reverse with hr
    refine ⟨(r.drop 19).reverse, (r.take 17).reverse, ?_, ?_, ?_⟩
    · have h17lt : 17 < r.length := by omega
      have h18lt : 18 < r.length := by omega
      have e17 : r[17] = ':' := by
        have := List.getElem?_eq_getElem h17lt
        rw [this] at h17
        exact Option.some.inj h17
      have e18 : r[18] = ':' := by
        have := List.getElem?_eq_getElem h18lt
        rw [this] at h18
        exact Option.some.inj h18
      have hsplit : r = r.take 17 ++ ':' :: ':' :: r.drop 19 := by
        conv_lhs => rw [← List.take_append_drop 17 r]
        congr 1
        rw [List.drop_eq_getElem_cons h17lt, e17]
        congr 1
        have : r.drop (17 + 1) = r.drop 18 := rfl
        rw [this, List.drop_eq_getElem_cons h18lt, e18]
      have : s.data = r.reverse := by rw [hr, List.reverse_reverse]
      rw [this]
      conv_lhs => rw [hsplit]
      simp [List.reverse_append]
    · have : (r.take 17).length = 17 := by
        rw [List.length_take]
        omega
      simpa using this
    · rw [List.all_reverse]
      exact hall
  · rintro ⟨pre, hash, hdec, hlen, hall⟩
    have hr : s.data.reverse = hash.reverse ++ ':' :: ':' :: pre.reverse := by
      rw [hdec]
      simp
    have hlr : hash.reverse.length = 17 := by simpa using hlen
    simp only [hashSuffixMatch, Bool.and_eq_true, decide_eq_true_eq,
      beq_iff_eq]
    refine ⟨⟨⟨?_, ?_⟩, ?_⟩, ?_⟩
    · rw [hr]
      simp [hlr]
      omega
    · have : (s.data.reverse).take 17 = hash.reverse := by
        rw [hr, ← hlr, List.take_left]
      rw [this, List.all_reverse]
      exact hall
    · rw [hr, ← hlr, List.getElem?_append_right (le_refl _)]
      simp [hlr]
    · rw [hr]
      have h18 : hash.reverse.length ≤ 18 := by omega
      rw [List.getElem?_append_right h18]
      simp [hlr]

/-- Counterexample to the idempotence part of claim C5: a demangled name
may end in two stacked hash-like segments, in which case a second
application of the transform strips a second suffix.  The base transform
is the modelled `rustc_demangle`, which passes this unmangled identifier
through unchanged. -/
theorem C5_idempotence_counterexample :
    ¬ (demangle (rustcDemangleModel fun s => s)
        (demangle (rustcDemangleModel fun s => s)
          "x::aaaaaaaaaaaaaaaaa::bbbbbbbbbbbbbbbbb") =
      demangle (rustcDemangleModel fun s => s)
        "x::aaaaaaaaaaaaaaaaa::bbbbbbbbbbbbbbbbb") := by
  decide

/-- Claim C5 (amended): the transform strips exactly the trailing
19-character `::` + 17-lowercase-alphanumeric suffix if and only if the
base-demangled string ends with that pattern, and returns every other
name exactly as produced by the base transform; it is idempotent whenever
the base transform fixes the first output and that output does not itself
end with the hash pattern (full idempotence fails,
see the counterexample). -/
theorem C5_hash_strip_amended (base : String → String) (f : String) :
    (∀ pre hash : List Char,
      (base f).data = pre ++ ':' :: ':' :: hash → hash.length = 17 →
      hash.all isLowerAlnum = true → demangle base f = ⟨pre⟩) ∧
    ((¬ ∃ pre hash : List Char, (base f).data = pre ++ ':' :: ':' :: hash ∧
        hash.length = 17 ∧ hash.all isLowerAlnum = true) →
      demangle base f = base f) ∧
    (base (demangle base f) = demangle base f →
      hashSuffixMatch (demangle base f) = false →
      demangle base (demangle base f) = demangle base f) := by
  refine ⟨fun pre hash hdec hlen hall => ?_, fun hno => ?_, fun hfix hm => ?_⟩
  · have hm : hashSuffixMatch (base f) = true :=
      (hashSuffixMatch_iff (base f)).2 ⟨pre, hash, hdec, hlen, hall⟩
    show (if hashSuffixMatch (base f) then strDropLast (base f) 19
      else base f) = ⟨pre⟩
    rw [if_pos hm]
    unfold strDropLast
    congr 1
    rw [hdec]
    have : (pre ++ ':' :: ':' :: hash).length = pre.length + 19 := by
      simp [List.length_append, hlen]
    rw [this, Nat.add_sub_cancel, List.take_left]
  · have hm : hashSuffixMatch (base f) = false := by
      rcases hb : hashSuffixMatch (base f) with _ | _
      · rfl
      · exact absurd ((hashSuffixMatch_iff (base f)).1 hb) hno
    show (if hashSuffixMatch (base f) then strDropLast (base f) 19
      else base f) = base f
    rw [if_neg (by simp [hm])]
  · show (if hashSuffixMatch (base (demangle base f)) then
        strDropLast (base (demangle base f)) 19
      else base (demangle base f)) = demangle base f
    rw [hfix, if_neg (by simp [hm])]

/-- Witness for the amended claim C5 at concrete inputs. -/
theorem C5_hash_strip_amended_witness :
    demangle (rustcDemangleModel fun s => s)
        "std::rt::lang_start::h9096f6f84fb08eb2" =
      ⟨"std::rt::lang_start".data⟩ ∧
    demangle (rustcDemangleModel fun s => s) "main" = "main" ∧
    demangle (rustcDemangleModel fun s => s)
        (demangle (rustcDemangleModel fun s => s) "main") =
      demangle (rustcDemangleModel fun s => s) "main" := by
  refine ⟨?_, ?_, ?_⟩
  · exact (C5_hash_strip_amended (rustcDemangleModel fun s => s)
      "std::rt::lang_start::h9096f6f84fb08eb2").1
      "std::rt::lang_start".data "h9096f6f84fb08eb2".data
      (by decide) (by decide) (by decide)
  · exact (C5_hash_strip_amended (rustcDemangleModel fun s => s) "main").2.1
      (by
        rintro ⟨pre, hash, hdec, hlen, hall⟩
        have hd : ("main" : String).data = pre ++ ':' :: ':' :: hash := hdec
        have hl := congrArg List.length hd
        have h4 : ("main" : String).data.length = 4 := rfl
        rw [h4] at hl
        simp [List.length_append, hlen] at hl)
  · exact (C5_hash_strip_amended (rustcDemangleModel fun s => s) "main").2.2
      (by decide) (by decide)

/-! ## Theorems about the path normalizer -/

lemma stripPre_append (p : String) (t : List Char) :
    stripPre p ⟨p.data ++ t⟩ = some ⟨t⟩ := by
  unfold stripPre
  rw [if_pos, List.drop_left]
  rw [List.isPrefixOf_iff_prefix]
  exact ⟨t, rfl⟩

lemma stripPre_none (p s : String) (h : p.data.isPrefixOf s.data = false) :
    stripPre p s = none := by
  unfold stripPre
  rw [if_neg (by simp [h])]

lemma afterChar_append (c : Char) (ident rest : List Char) (h : c ∉ ident) :
    afterChar c (ident ++ c :: rest) = some rest := by
  induction ident with
  | nil => simp [afterChar]
  | cons x xs ih =>
    have hx : x ≠ c := fun he => h (he ▸ List.mem_cons_self x xs)
    simp only [List.cons_append, afterChar, if_neg hx]
    exact ih fun hm => h (List.mem_cons_of_mem x hm)

lemma afterChar_none (c : Char) (ident : List Char) (h : c ∉ ident) :
    afterChar c ident = none := by
  induction ident with
  | nil => rfl
  | cons x xs ih =>
    have hx : x ≠ c := fun he => h (he ▸ List.mem_cons_self x xs)
    simp only [afterChar, if_neg hx]
    exact ih fun hm => h (List.mem_cons_of_mem x hm)

/-- Claim C6: with a configured toolchain source root, a path that starts
with the `/rustc/` marker and has a separator after the build-identifier
segment is remapped to the root joined with the remainder, backslashes
forced to forward slashes; with no configured root, no marker, or no
separator after the identifier the path is returned unchanged. -/
theorem C6_normalize_path_characterization :
    (∀ (ext : Bool) (dir : String) (fk : List String) (root : String)
        (ident rest : List Char), '/' ∉ ident →
      normalize_path ⟨ext, dir, fk, some root⟩
          ⟨rustcMarker.data ++ (ident ++ '/' :: rest)⟩ =
        replaceChar '\\' '/' (pathJoin root ⟨rest⟩)) ∧
    (∀ (opts : RemarkLoadOptions) (path : String),
      opts.rustc_source_root = none → normalize_path opts path = path) ∧
    (∀ (opts : RemarkLoadOptions) (path : String),
      strStartsWith path rustcMarker = false → normalize_path opts path = path) ∧
    (∀ (ext : Bool) (dir : String) (fk : List String) (root : String)
        (ident : List Char), '/' ∉ ident →
      normalize_path ⟨ext, dir, fk, some root⟩ ⟨rustcMarker.data ++ ident⟩ =
        ⟨rustcMarker.data ++ ident⟩) := by
  refine ⟨fun ext dir fk root ident rest h => ?_, fun opts path h => ?_,
    fun opts path h => ?_, fun ext dir fk root ident h => ?_⟩
  · show (match stripPre rustcMarker ⟨rustcMarker.data ++ (ident ++ '/' :: rest)⟩ with
      | some stripped =>
        match afterChar '/' stripped.data with
        | some r => replaceChar '\\' '/' (pathJoin root ⟨r⟩)
        | none => (⟨rustcMarker.data ++ (ident ++ '/' :: rest)⟩ : String)
      | none => (⟨rustcMarker.data ++ (ident ++ '/' :: rest)⟩ : String)) =
      replaceChar '\\' '/' (pathJoin root ⟨rest⟩)
    rw [stripPre_append rustcMarker (ident ++ '/' :: rest)]
    show (match afterChar '/' (ident ++ '/' :: rest) with
      | some r => replaceChar '\\' '/' (pathJoin root ⟨r⟩)
      | none => (⟨rustcMarker.data ++ (ident ++ '/' :: rest)⟩ : String)) =
      replaceChar '\\' '/' (pathJoin root ⟨rest⟩)
    rw [afterChar_append '/' ident rest h]
  · unfold normalize_path
    rw [h]
  · unfold normalize_path
    cases hr : opts.rustc_source_root with
    | none => rfl
    | some root =>
      rw [stripPre_none rustcMarker path (by rwa [strStartsWith] at h)]
  · show (match stripPre rustcMarker ⟨rustcMarker.data ++ ident⟩ with
      | some stripped =>
        match afterChar '/' stripped.data with
        | some r => replaceChar '\\' '/' (pathJoin root ⟨r⟩)
        | none => (⟨rustcMarker.data ++ ident⟩ : String)
      | none => (⟨rustcMarker.data ++ ident⟩ : String)) =
      (⟨rustcMarker.data ++ ident⟩ : String)
    rw [stripPre_append rustcMarker ident]
    show (match afterChar '/' ident with
      | some r => replaceChar '\\' '/' (pathJoin root ⟨r⟩)
      | none => (⟨rustcMarker.data ++ ident⟩ : String)) =
      (⟨rustcMarker.data ++ ident⟩ : String)
    rw [afterChar_none '/' ident h]

/-- Witness for claim C6 at concrete inputs. -/
theorem C6_normalize_path_characterization_witness :
    normalize_path ⟨true, "d", [], some "/foo"⟩
        ⟨rustcMarker.data ++ ("08d".data ++ '/' :: "lib\\a.rs".data)⟩ =
      replaceChar '\\' '/' (pathJoin "/foo" ⟨"lib\\a.rs".data⟩) ∧
    normalize_path ⟨true, "d", [], none⟩ "src/main.rs" = "src/main.rs" ∧
    normalize_path ⟨true, "d", [], some "/foo"⟩ "src/main.rs" = "src/main.rs" ∧
    normalize_path ⟨true, "d", [], some "/foo"⟩
        ⟨rustcMarker.data ++ "08d".data⟩ = ⟨rustcMarker.data ++ "08d".data⟩ :=
  ⟨C6_normalize_path_characterization.1 true "d" [] "/foo" "08d".data
      "lib\\a.rs".data (by decide),
   C6_normalize_path_characterization.2.1 ⟨true, "d", [], none⟩ "src/main.rs" rfl,
   C6_normalize_path_characterization.2.2.1 ⟨true, "d", [], some "/foo"⟩
      "src/main.rs" (by decide),
   C6_normalize_path_characterization.2.2.2 true "d" [] "/foo" "08d".data
      (by decide)⟩

/-! ## Theorems about the file and directory loaders -/

lemma filterMap_range_getElem {α β : Type} (files : List α) (g : α → β) :
    ((List.range files.length).filterMap fun i => (files[i]?).map g) =
      files.map g := by
  induction files with
  | nil => rfl
  | cons f rest ih =>
    rw [List.length_cons, List.range_succ_eq_map, List.filterMap_cons,
      List.filterMap_map]
    have he : ((fun i => ((f :: rest)[i]?).map g) ∘ Nat.succ) =
        fun i => (rest[i]?).map g := by
      funext i
      simp
    rw [he, ih]
    simp

lemma runSchedule_shape {α : Type} (process : FileInput → α)
    (files : List FileInput) (sched : List Nat) (x : Nat × α)
    (hx : x ∈ runSchedule process files sched) :
    ∃ f, files[x.1]? = some f ∧ x.2 = process f := by
  obtain ⟨i, hi, hfi⟩ := List.mem_filterMap.1 hx
  cases hf : files[i]? with
  | none => rw [hf] at hfi; exact absurd hfi (by simp)
  | some f =>
    rw [hf] at hfi
    simp only [Option.map_some', Option.some.injEq] at hfi
    subst hfi
    exact ⟨f, hf, rfl⟩

lemma runSchedule_complete {α : Type} (process : FileInput → α)
    (files : List FileInput) (sched : List Nat) (i : Nat) (f : FileInput)
    (hi : i ∈ sched) (hf : files[i]? = some f) :
    (i, process f) ∈ runSchedule process files sched :=
  List.mem_filterMap.2 ⟨i, hi, by rw [hf]; rfl⟩

lemma collect_runSchedule {α : Type} (process : FileInput → α)
    (files : List FileInput) (sched : List Nat)
    (hperm : sched.Perm (List.range files.length)) :
    collectByIndex files.length (runSchedule process files sched) =
      files.map process := by
  unfold collectByIndex
  rw [← filterMap_range_getElem files process]
  apply List.filterMap_congr
  intro i hi
  have hilt : i < files.length := List.mem_range.1 hi
  have hf : files[i]? = some files[i] := List.getElem?_eq_getElem hilt
  have hmem : (i, process files[i]) ∈ runSchedule process files sched :=
    runSchedule_complete process files sched i files[i]
      (hperm.mem_iff.2 hi) hf
  have hsome :
      ((runSchedule process files sched).find? fun p => p.1 == i).isSome :=
    List.find?_isSome.2 ⟨(i, process files[i]), hmem, by simp⟩
  obtain ⟨x, hx⟩ := Option.isSome_iff_exists.1 hsome
  have hx1 : x.1 = i := by simpa using List.find?_some hx
  obtain ⟨g, hg, hx2⟩ :=
    runSchedule_shape process files sched x (List.mem_of_find?_eq_some hx)
  rw [hx1, hf] at hg
  rw [hx, hf]
  simp only [Option.map_some', Option.some.injEq]
  rw [hx2, Option.some.inj hg]

lemma parse_remarks_append (base : String → String) (isFile : String → Bool)
    (opts : RemarkLoadOptions) (xs ys : List (Option ParsedRemark)) :
    parse_remarks base isFile opts (xs ++ ys) =
      parse_remarks base isFile opts xs ++ parse_remarks base isFile opts ys := by
  induction xs with
  | nil => rfl
  | cons d rest ih =>
    show processDocument base isFile opts d ++
        parse_remarks base isFile opts (rest ++ ys) = _
    rw [ih, ← List.append_assoc]
    rfl

lemma seqLoad_failed_file (base : String → String) (isFile : String → Bool)
    (opts : RemarkLoadOptions) (fs1 fs2 : List FileInput) :
    seqLoad base isFile opts (fs1 ++ .unreadable :: fs2) =
      seqLoad base isFile opts fs1 ++ seqLoad base isFile opts fs2 := by
  unfold seqLoad
  rw [List.map_append, List.map_cons, List.filterMap_append,
    List.filterMap_cons, List.flatten_append]
  rfl

/-- Claim C7: failures are contained at their scope — a document that
fails to deserialize is skipped and parsing continues with the subsequent
documents; a file whose open or read fails contributes zero remarks while
the directory-level load still returns `Ok` with all other files'
remarks; an empty file yields `Ok []`; and the directory-level load
errors exactly when the directory itself is inaccessible. -/
theorem C7_failure_containment (base : String → String)
    (isFile : String → Bool) (opts : RemarkLoadOptions) :
    (∀ xs ys : List (Option ParsedRemark),
      parse_remarks base isFile opts (xs ++ none :: ys) =
        parse_remarks base isFile opts xs ++
          parse_remarks base isFile opts ys) ∧
    (∀ (fs1 fs2 : List FileInput) (sched : List Nat),
      sched.Perm (List.range (fs1 ++ .unreadable :: fs2).length) →
      load_remarks_from_dir base isFile opts sched
          (.dir (fs1 ++ .unreadable :: fs2)) =
        .ok (seqLoad base isFile opts fs1 ++ seqLoad base isFile opts fs2)) ∧
    load_remarks_from_file base isFile opts (.content []) = .ok [] ∧
    (∀ (sched : List Nat) (d : DirInput),
      load_remarks_from_dir base isFile opts sched d = .error () ↔
        d = .inaccessible) := by
  refine ⟨fun xs ys => ?_, fun fs1 fs2 sched hperm => ?_, rfl,
    fun sched d => ?_⟩
  · rw [parse_remarks_append]
    rfl
  · show Except.ok ((collectByIndex (fs1 ++ .unreadable :: fs2).length
        (runSchedule (load_remarks_from_file base isFile opts)
          (fs1 ++ .unreadable :: fs2) sched)).filterMap Except.toOption
        |>.flatten) = _
    rw [collect_runSchedule _ _ sched hperm]
    have : (((fs1 ++ .unreadable :: fs2).map
        (load_remarks_from_file base isFile opts)).filterMap
          Except.toOption).flatten =
        seqLoad base isFile opts (fs1 ++ .unreadable :: fs2) := rfl
    rw [this, seqLoad_failed_file]
  · cases d with
    | inaccessible => simp [load_remarks_from_dir]
    | dir files => simp [load_remarks_from_dir]

/-- Witness for claim C7 at concrete inputs. -/
theorem C7_failure_containment_witness :
    parse_remarks (fun s => s) (fun _ => true) ⟨true, "d", [], none⟩
        ([some .passed] ++ none :: [some .analysis]) =
      parse_remarks (fun s => s) (fun _ => true) ⟨true, "d", [], none⟩
          [some .passed] ++
        parse_remarks (fun s => s) (fun _ => true) ⟨true, "d", [], none⟩
          [some .analysis] ∧
    load_remarks_from_dir (fun s => s) (fun _ => true) ⟨true, "d", [], none⟩
        [2, 0, 1] (.dir ([.content []] ++ .unreadable :: [.content []])) =
      .ok (seqLoad (fun s => s) (fun _ => true) ⟨true, "d", [], none⟩
          [.content []] ++
        seqLoad (fun s => s) (fun _ => true) ⟨true, "d", [], none⟩
          [.content []]) :=
  ⟨(C7_failure_containment (fun s => s) (fun _ => true)
      ⟨true, "d", [], none⟩).1 [some .passed] [some .analysis],
   (C7_failure_containment (fun s => s) (fun _ => true)
      ⟨true, "d", [], none⟩).2.1 [.content []] [.content []] [2, 0, 1]
      (by decide)⟩

/-- Claim C8: with any worker-completion order (any permutation of the
file indices), collecting the per-file results by original index makes
the directory-level load observationally equal to processing the files
sequentially in enumeration order. -/
theorem C8_parallel_load_deterministic (base : String → String)
    (isFile : String → Bool) (opts : RemarkLoadOptions)
    (files : List FileInput) (sched : List Nat)
    (hperm : sched.Perm (List.range files.length)) :
    load_remarks_from_dir base isFile opts sched (.dir files) =
      .ok (seqLoad base isFile opts files) := by
  show Except.ok ((collectByIndex files.length
      (runSchedule (load_remarks_from_file base isFile opts) files
        sched)).filterMap Except.toOption |>.flatten) = _
  rw [collect_runSchedule _ _ sched hperm]
  rfl

/-- Witness for claim C8 with a reversed completion order. -/
theorem C8_parallel_load_deterministic_witness :
    load_remarks_from_dir (fun s => s) (fun _ => true) ⟨true, "d", [], none⟩
        [1, 0] (.dir [.content [some .passed], .unreadable]) =
      .ok (seqLoad (fun s => s) (fun _ => true) ⟨true, "d", [], none⟩
        [.content [some .passed], .unreadable]) :=
  C8_parallel_load_deterministic (fun s => s) (fun _ => true)
    ⟨true, "d", [], none⟩ [.content [some .passed], .unreadable] [1, 0]
    (by decide)

end CargoRemark
